import Mathlib

/-!
Shallow embedding of the `event-dispatcher` publish/subscribe core.

The repository ships only its test suite (`src/tests/event-dispatcher_test.js`);
the dispatcher implementation itself is not present. The definitions below are
therefore modelled from the specification's description of the data model and
of each operation, with the repository's tests taken as the authority wherever
they pin down behaviour (one divergence between the spec and the tests is noted
at `offAll`).

Handlers (JavaScript callables) are identified by their reference identity,
modelled as a `Nat`. Payload values are modelled by `JSVal`, which distinguishes
exactly the values the passing discipline cares about. The mutable registry is
an insertion-ordered association list from event names to listener-record
sequences, matching the spec's `listenersByEvent` mapping and JavaScript's
insertion-ordered object keys. Behaviour of a listener during its invocation
(doing nothing, throwing, or re-entering the dispatcher API) is modelled by an
environment assigning a `HandlerAction` to each handler identity.
-/

namespace EventDispatcher

/-- JavaScript values as far as payload passing is concerned: the dispatcher
passes payloads through opaquely, so only the marker values `undefined` and
`null`, strings, and opaque object identities are distinguished. -/
inductive JSVal where
  | undefined
  | null
  | str (s : String)
  | obj (id : Nat)
deriving DecidableEq

/-- Error kinds of the dispatcher (spec section 7). -/
inductive DispatchError where
  | invalidArgument
  | eventNotAllowed
  | alreadyComposed
deriving DecidableEq

/-- Listener record: the registered callable's identity plus the flag saying
whether it must be removed after its first invocation (spec section 3). -/
structure ListenerRecord where
  handler : Nat
  once : Bool
deriving DecidableEq

/-- The per-event listener registry: an insertion-ordered association list
from event name to the ordered sequence of listener records. -/
abbrev Registry := List (String × List ListenerRecord)

/-- Look up the listener sequence stored under an event key. -/
def lookupEvent : Registry → String → Option (List ListenerRecord)
  | [], _ => none
  | (k, v) :: rest, ev => if k = ev then some v else lookupEvent rest ev

/-- Store a listener sequence under an event key, replacing the existing entry
in place or appending a new key in insertion order (JavaScript object-key
update semantics). -/
def setEvent : Registry → String → List ListenerRecord → Registry
  | [], ev, l => [(ev, l)]
  | (k, v) :: rest, ev, l =>
    if k = ev then (ev, l) :: rest else (k, v) :: setEvent rest ev l

/-- Delete an event key from the registry (key pruning). -/
def removeEvent : Registry → String → Registry
  | [], _ => []
  | (k, v) :: rest, ev =>
    if k = ev then removeEvent rest ev else (k, v) :: removeEvent rest ev

/-- Remove every record whose stored callable is reference-equal to `h`
(the match semantics of `off`, spec section 4). -/
def removeHandler : List ListenerRecord → Nat → List ListenerRecord
  | [], _ => []
  | r :: rest, h =>
    if r.handler = h then removeHandler rest h else r :: removeHandler rest h

/-- Remove the first occurrence of the record `t` from the sequence (used for
the automatic removal of a once-record after its invocation). -/
def removeFirstAux : List ListenerRecord → ListenerRecord → List ListenerRecord
  | [], _ => []
  | r :: rest, t => if r = t then rest else r :: removeFirstAux rest t

/-- Number of records in a sequence whose callable is `h`. -/
def countIn (h : Nat) : List ListenerRecord → Nat
  | [] => 0
  | r :: rest => (if r.handler = h then 1 else 0) + countIn h rest

/-- Dispatcher state: the optional allow-list fixed at construction time and
the live registry (spec section 3). -/
structure Dispatcher where
  allowedEvents : Option (List String)
  registry : Registry
deriving DecidableEq

/-- Validation shared by the public operations: the event name must be a
non-empty string, and, when an allow-list is configured, a member of it
(spec sections 4 and 7). -/
def checkEventName (allowed : Option (List String)) (ev : String) :
    Except DispatchError Unit :=
  if ev = "" then .error .invalidArgument
  else
    match allowed with
    | none => .ok ()
    | some l => if ev ∈ l then .ok () else .error .eventNotAllowed

/-- The listener sequence currently held for an event (empty when the key is
absent). -/
def listenersOf (d : Dispatcher) (ev : String) : List ListenerRecord :=
  match lookupEvent d.registry ev with
  | some l => l
  | none => []

/-- Registry change performed by a successful `on`: append a non-once record. -/
def onState (d : Dispatcher) (ev : String) (h : Nat) : Dispatcher :=
  { d with registry := setEvent d.registry ev (listenersOf d ev ++ [⟨h, false⟩]) }

/-- Registry change performed by a successful `once`: append a once record. -/
def onceState (d : Dispatcher) (ev : String) (h : Nat) : Dispatcher :=
  { d with registry := setEvent d.registry ev (listenersOf d ev ++ [⟨h, true⟩]) }

/-- Registry change performed by a successful `off`: drop every record under
`ev` whose callable is reference-equal to `h`, pruning the key if the
sequence empties. -/
def offState (d : Dispatcher) (ev : String) (h : Nat) : Dispatcher :=
  match lookupEvent d.registry ev with
  | none => d
  | some l =>
    if removeHandler l h = [] then { d with registry := removeEvent d.registry ev }
    else { d with registry := setEvent d.registry ev (removeHandler l h) }

/-- Registry change performed by a successful `offAll`: prune one key, or
clear the whole registry when no event name is supplied. -/
def offAllState (d : Dispatcher) : Option String → Dispatcher
  | none => { d with registry := [] }
  | some ev => { d with registry := removeEvent d.registry ev }

/-- Automatic removal of an invoked once-record: delete the first occurrence
of the record under `ev`, pruning the key if the sequence empties. -/
def removeFirstRecord (d : Dispatcher) (ev : String) (t : ListenerRecord) :
    Dispatcher :=
  match lookupEvent d.registry ev with
  | none => d
  | some l =>
    if removeFirstAux l t = [] then { d with registry := removeEvent d.registry ev }
    else { d with registry := setEvent d.registry ev (removeFirstAux l t) }

/-- Register a non-once listener (spec section 4, `register`). -/
def register (d : Dispatcher) (ev : String) (h : Nat) :
    Except DispatchError Dispatcher :=
  match checkEventName d.allowedEvents ev with
  | .error e => .error e
  | .ok _ => .ok (onState d ev h)

/-- Register a one-shot listener (spec section 4, `registerOnce`). -/
def once (d : Dispatcher) (ev : String) (h : Nat) :
    Except DispatchError Dispatcher :=
  match checkEventName d.allowedEvents ev with
  | .error e => .error e
  | .ok _ => .ok (onceState d ev h)

/-- Unregister every record matching the callable `h` under `ev`; a silent
no-op when nothing matches (spec section 4, `unregister`). -/
def off (d : Dispatcher) (ev : String) (h : Nat) :
    Except DispatchError Dispatcher :=
  match checkEventName d.allowedEvents ev with
  | .error e => .error e
  | .ok _ => .ok (offState d ev h)

/-- Bulk clear (spec section 4, `unregisterAll`). Modelled from the spec with
one amendment taken from the repository's tests: with a supplied event name
the tests assert that a restricted dispatcher throws for a non-member name
(`offAll > with allowed events > throws if event name is not allowed`), so
the supplied name undergoes the same validation as every other operation,
overriding the spec's claimed allow-list exemption. With no argument the
whole registry is cleared unconditionally. -/
def offAll (d : Dispatcher) : Option String → Except DispatchError Dispatcher
  | none => .ok (offAllState d none)
  | some ev =>
    match checkEventName d.allowedEvents ev with
    | .error e => .error e
    | .ok _ => .ok (offAllState d (some ev))

/-- Query whether at least one listener record is held for the event
(spec section 4, `hasListeners`). -/
def hasListeners (d : Dispatcher) (ev : String) : Except DispatchError Bool :=
  match checkEventName d.allowedEvents ev with
  | .error e => .error e
  | .ok _ =>
    match lookupEvent d.registry ev with
    | none => .ok false
    | some l => .ok (!l.isEmpty)

/-- Behaviour of a listener during its own invocation: it may do nothing,
throw synchronously, or re-enter the dispatcher API to register or remove
listeners. -/
inductive HandlerAction where
  | pure
  | throws
  | doOn (ev : String) (h : Nat)
  | doOnce (ev : String) (h : Nat)
  | doOff (ev : String) (h : Nat)
  | doOffAll (ev : Option String)
deriving DecidableEq

/-- Assignment of an invocation behaviour to every handler identity. -/
def Env : Type := Nat → HandlerAction

/-- Result of an API call made from inside a listener: a failure raised there
is swallowed by the emission loop, leaving the state unchanged. -/
def recover (r : Except DispatchError Dispatcher) (d : Dispatcher) : Dispatcher :=
  match r with
  | .ok d' => d'
  | .error _ => d

/-- Effect of one listener invocation on the live registry. A throwing
listener changes nothing (its failure is swallowed); a listener that
re-enters the API applies the corresponding operation, with any error it
raises likewise swallowed. -/
def applyAction (env : Env) (d : Dispatcher) (h : Nat) : Dispatcher :=
  match env h with
  | .pure => d
  | .throws => d
  | .doOn ev h' => recover (register d ev h') d
  | .doOnce ev h' => recover (once d ev h') d
  | .doOff ev h' => recover (off d ev h') d
  | .doOffAll ev => recover (offAll d ev) d

/-- Full effect of invoking the snapshot record `r` on the live registry:
the listener's own behaviour runs first, then, if the record is
once-flagged, it is removed from the live registry before the next snapshot
record is considered (spec sections 4 and 5). -/
def stepRecord (env : Env) (ev : String) (d : Dispatcher) (r : ListenerRecord) :
    Dispatcher :=
  if r.once then removeFirstRecord (applyAction env d r.handler) ev r
  else applyAction env d r.handler

/-- The emission loop: walk the point-in-time snapshot of the listener
sequence, invoking each record's callable with the argument list `args`
(collected in the returned trace) and applying its effects to the live
registry. The snapshot is fixed, so mutations performed by listeners do not
change which records are visited (spec section 5). -/
def runSnapshot (env : Env) (ev : String) (args : List JSVal) :
    List ListenerRecord → Dispatcher → Dispatcher × List (Nat × List JSVal)
  | [], d => (d, [])
  | r :: rest, d =>
    ((runSnapshot env ev args rest (stepRecord env ev d r)).1,
      (r.handler, args) :: (runSnapshot env ev args rest (stepRecord env ev d r)).2)

/-- Announce an event (spec section 4, `emit`): validate the name, snapshot
the listener sequence, and run the emission loop, passing the payload as the
sole argument to every listener. The returned trace records each invocation
with its argument list. -/
def emit (env : Env) (d : Dispatcher) (ev : String) (payload : JSVal) :
    Except DispatchError (Dispatcher × List (Nat × List JSVal)) :=
  match checkEventName d.allowedEvents ev with
  | .error e => .error e
  | .ok _ => .ok (runSnapshot env ev [payload] (listenersOf d ev) d)

/-- Modelled from the spec: `emit` called without a payload passes the
absent-value marker as the sole argument to every listener; the repository's
tests (`sinon.assert.calledWithExactly(handler, undefined)`) pin that marker
to the single argument `undefined`. -/
def emitNoArg (env : Env) (d : Dispatcher) (ev : String) :
    Except DispatchError (Dispatcher × List (Nat × List JSVal)) :=
  emit env d ev JSVal.undefined

/-- A composition target: an object modelled by its own property names in
insertion order. -/
structure JSObject where
  props : List String
deriving DecidableEq

/-- The six reserved operation names attached by composition, as listed in
the repository's tests. -/
def reservedNames : List String :=
  ["on", "once", "off", "offAll", "emit", "hasListeners"]

/-- Construction-time validation of the optional allow-list: when present it
must be a sequence of non-empty strings (spec section 4.3). -/
def validAllowedEvents : Option (List String) → Bool
  | none => true
  | some l => l.all (fun s => if s = "" then false else true)

/-- Modelled from the spec: direct construction of a dispatcher with an
optional allow-list and an empty registry. -/
def construct (allowed : Option (List String)) : Except DispatchError Dispatcher :=
  if validAllowedEvents allowed = false then .error .invalidArgument
  else .ok { allowedEvents := allowed, registry := [] }

/-- Modelled from the spec: the composition adapter (`mixin`). It validates
the allow-list argument, aborts with `AlreadyComposed` when the target
already defines any reserved operation name (leaving the target unchanged),
and otherwise defines the six operations on the target, backed by a fresh
private dispatcher state, returning the mutated target. -/
def mixin (target : JSObject) (allowed : Option (List String)) :
    Except DispatchError (JSObject × Dispatcher) :=
  if validAllowedEvents allowed = false then .error .invalidArgument
  else if ∃ n ∈ reservedNames, n ∈ target.props then .error .alreadyComposed
  else
    .ok ({ props := target.props ++ reservedNames },
      { allowedEvents := allowed, registry := [] })

/-- A caller-side API call in an operation sequence. -/
inductive Op where
  | opOn (ev : String) (h : Nat)
  | opOnce (ev : String) (h : Nat)
  | opOff (ev : String) (h : Nat)
  | opOffAll (ev : Option String)
  | opEmit (ev : String) (p : JSVal)
deriving DecidableEq

/-- Execute one API call, returning the next state and the invocations it
performed; a call that raises leaves the state unchanged (the caller catches
the error and may continue). -/
def step (env : Env) (d : Dispatcher) : Op → Dispatcher × List (Nat × List JSVal)
  | .opOn ev h => (recover (register d ev h) d, [])
  | .opOnce ev h => (recover (once d ev h) d, [])
  | .opOff ev h => (recover (off d ev h) d, [])
  | .opOffAll ev => (recover (offAll d ev) d, [])
  | .opEmit ev p =>
    match emit env d ev p with
    | .ok res => res
    | .error _ => (d, [])

/-- Execute a sequence of API calls, concatenating the invocation traces. -/
def run (env : Env) (d : Dispatcher) : List Op → Dispatcher × List (Nat × List JSVal)
  | [] => (d, [])
  | op :: ops =>
    ((run env (step env d op).1 ops).1,
      (step env d op).2 ++ (run env (step env d op).1 ops).2)

/-- Number of invocations of the handler `h` recorded in a trace. -/
def invCount (h : Nat) : List (Nat × List JSVal) → Nat
  | [] => 0
  | e :: rest => (if e.1 = h then 1 else 0) + invCount h rest

/-- Whether a listener behaviour registers the handler `h` when it runs. -/
def actionRegistersH (h : Nat) : HandlerAction → Bool
  | .doOn _ h' => decide (h' = h)
  | .doOnce _ h' => decide (h' = h)
  | _ => false

/-- Whether an API call registers the handler `h`. -/
def opRegistersH (h : Nat) : Op → Bool
  | .opOn _ h' => decide (h' = h)
  | .opOnce _ h' => decide (h' = h)
  | _ => false

/-- Every record of the handler `h` anywhere in the registry is once-flagged. -/
def onceOnly (d : Dispatcher) (h : Nat) : Prop :=
  ∀ ev r, r ∈ listenersOf d ev → r.handler = h → r.once = true

/-- The handler `h` has no records outside the event `ev`. -/
def confined (d : Dispatcher) (ev : String) (h : Nat) : Prop :=
  ∀ e, e ≠ ev → countIn h (listenersOf d e) = 0

/-- Between two states, the records of the handler `h` can only have been
removed: per-event counts do not grow and no new `h`-record appears. -/
def hShrink (h : Nat) (d d' : Dispatcher) : Prop :=
  ∀ e, countIn h (listenersOf d' e) ≤ countIn h (listenersOf d e) ∧
    ∀ r ∈ listenersOf d' e, r.handler = h → r ∈ listenersOf d e

/-- Well-formedness of the registry: every present key maps to a non-empty
sequence (spec section 3 invariant), and keys are unique (JavaScript object
keys). -/
def registryWF (d : Dispatcher) : Prop :=
  (∀ q ∈ d.registry, q.2 ≠ ([] : List ListenerRecord)) ∧
    (d.registry.map Prod.fst).Nodup

/-- Forget a configured allow-list, keeping the registry (used to compare a
restricted dispatcher with unrestricted mode). -/
def unrestricted (d : Dispatcher) : Dispatcher :=
  { d with allowedEvents := none }

/-- Listener environment in which every handler does nothing when invoked. -/
def envPure : Env := fun _ => HandlerAction.pure

/-- Listener environment in which handler 1 throws synchronously and every
other handler does nothing, matching the test scenario where the first
registered handler throws. -/
def envThrow1 : Env := fun h => if h = 1 then HandlerAction.throws else HandlerAction.pure

/-- An unrestricted dispatcher with an empty registry. -/
def dPlain : Dispatcher := Dispatcher.mk none []

/-- An unrestricted dispatcher holding two non-once listeners for "event",
in registration order 1 then 2. -/
def dTwo : Dispatcher :=
  Dispatcher.mk none [("event", [⟨1, false⟩, ⟨2, false⟩])]

/-- A dispatcher restricted to the two allow-listed names used by the
repository's tests. -/
def dRestricted : Dispatcher :=
  Dispatcher.mk (some ["allowed-event-1", "allowed-event-2"]) []

/-- The dispatcher state produced by `once dPlain "event" 7`. -/
def dOnce7 : Dispatcher :=
  Dispatcher.mk none [("event", [⟨7, true⟩])]

/-- Operation sequence announcing "event" twice with no payload. -/
def opsTwice : List Op :=
  [Op.opEmit "event" JSVal.undefined, Op.opEmit "event" JSVal.undefined]

/-- A composition target with a single own method, as in the tests. -/
def targetPlain : JSObject := JSObject.mk ["ownMethod"]

/-! Basic lemmas about the registry primitives. -/

theorem lookupEvent_setEvent (reg : Registry) (ev : String)
    (l : List ListenerRecord) (e : String) :
    lookupEvent (setEvent reg ev l) e =
      if e = ev then some l else lookupEvent reg e := by
  induction reg with
  | nil =>
    simp only [setEvent, lookupEvent]
    by_cases h : ev = e
    · subst h
      simp
    · have h' : ¬ e = ev := fun hc => h hc.symm
      simp [h, h']
  | cons q rest ih =>
    obtain ⟨k, v⟩ := q
    simp only [setEvent]
    by_cases hk : k = ev
    · subst hk
      simp only [if_pos rfl, lookupEvent]
      by_cases he : k = e
      · subst he
        simp
      · have he' : ¬ e = k := fun hc => he hc.symm
        simp [lookupEvent, he, he']
    · simp only [if_neg hk, lookupEvent]
      by_cases he : k = e
      · have hev : ¬ e = ev := fun hc => hk (he.trans hc)
        simp [he, hev]
      · simp [he, ih]

theorem lookupEvent_removeEvent (reg : Registry) (ev : String) (e : String) :
    lookupEvent (removeEvent reg ev) e =
      if e = ev then none else lookupEvent reg e := by
  induction reg with
  | nil => simp [removeEvent, lookupEvent]
  | cons q rest ih =>
    obtain ⟨k, v⟩ := q
    simp only [removeEvent]
    by_cases hk : k = ev
    · subst hk
      rw [if_pos (rfl : k = k), ih]
      by_cases he : e = k
      · simp [he]
      · have he' : ¬ k = e := fun hc => he hc.symm
        simp [lookupEvent, he, he']
    · simp only [if_neg hk, lookupEvent]
      by_cases he : k = e
      · have hev : ¬ e = ev := fun hc => hk (he.trans hc)
        simp [he, hev]
      · simp [he, ih]

theorem setEvent_lookup_self (reg : Registry) (ev : String)
    (l : List ListenerRecord) (hl : lookupEvent reg ev = some l) :
    setEvent reg ev l = reg := by
  induction reg with
  | nil => simp [lookupEvent] at hl
  | cons q rest ih =>
    obtain ⟨k, v⟩ := q
    simp only [lookupEvent] at hl
    simp only [setEvent]
    by_cases hk : k = ev
    · subst hk
      simp only [if_pos rfl] at hl ⊢
      cases hl
      rfl
    · simp only [if_neg hk] at hl ⊢
      rw [ih hl]

theorem lookupEvent_mem (reg : Registry) (ev : String)
    (l : List ListenerRecord) (hl : lookupEvent reg ev = some l) :
    (ev, l) ∈ reg := by
  induction reg with
  | nil => simp [lookupEvent] at hl
  | cons q rest ih =>
    obtain ⟨k, v⟩ := q
    simp only [lookupEvent] at hl
    by_cases hk : k = ev
    · subst hk
      simp only [if_pos rfl] at hl
      cases hl
      exact List.mem_cons_self _ _
    · simp only [if_neg hk] at hl
      exact List.mem_cons_of_mem _ (ih hl)

theorem lookupEvent_of_mem_key (reg : Registry) (ev : String)
    (hmem : ∃ q ∈ reg, q.1 = ev) : ∃ l, lookupEvent reg ev = some l := by
  induction reg with
  | nil => simp at hmem
  | cons q rest ih =>
    obtain ⟨k, v⟩ := q
    by_cases hk : k = ev
    · subst hk
      exact ⟨v, by simp [lookupEvent]⟩
    · simp only [lookupEvent, if_neg hk]
      apply ih
      rcases hmem with ⟨q', hq', he⟩
      rcases List.mem_cons.1 hq' with h | h
      · subst h
        exact absurd he hk
      · exact ⟨q', h, he⟩

theorem lookupEvent_eq_none_of_not_mem (reg : Registry) (ev : String)
    (hmem : ev ∉ reg.map Prod.fst) : lookupEvent reg ev = none := by
  induction reg with
  | nil => rfl
  | cons q rest ih =>
    obtain ⟨k, v⟩ := q
    simp only [List.map_cons, List.mem_cons, not_or] at hmem
    have hk : ¬ k = ev := fun h => hmem.1 h.symm
    simp only [lookupEvent, if_neg hk]
    exact ih hmem.2

theorem mem_setEvent (reg : Registry) (ev : String) (l : List ListenerRecord)
    (q : String × List ListenerRecord) (hq : q ∈ setEvent reg ev l) :
    q = (ev, l) ∨ q ∈ reg := by
  induction reg with
  | nil =>
    simp only [setEvent, List.mem_singleton] at hq
    exact Or.inl hq
  | cons p rest ih =>
    obtain ⟨k, v⟩ := p
    simp only [setEvent] at hq
    by_cases hk : k = ev
    · simp only [if_pos hk, List.mem_cons] at hq
      rcases hq with h | h
      · exact Or.inl h
      · exact Or.inr (List.mem_cons_of_mem _ h)
    · simp only [if_neg hk, List.mem_cons] at hq
      rcases hq with h | h
      · exact Or.inr (by simp [h])
      · rcases ih h with h' | h'
        · exact Or.inl h'
        · exact Or.inr (List.mem_cons_of_mem _ h')

theorem mem_removeEvent (reg : Registry) (ev : String)
    (q : String × List ListenerRecord) (hq : q ∈ removeEvent reg ev) :
    q ∈ reg := by
  induction reg with
  | nil => simp [removeEvent] at hq
  | cons p rest ih =>
    obtain ⟨k, v⟩ := p
    simp only [removeEvent] at hq
    by_cases hk : k = ev
    · simp only [if_pos hk] at hq
      exact List.mem_cons_of_mem _ (ih hq)
    · simp only [if_neg hk, List.mem_cons] at hq
      rcases hq with h | h
      · simp [h]
      · exact List.mem_cons_of_mem _ (ih h)

theorem keys_setEvent_of_lookup_some (reg : Registry) (ev : String)
    (l l0 : List ListenerRecord) (hl : lookupEvent reg ev = some l0) :
    (setEvent reg ev l).map Prod.fst = reg.map Prod.fst := by
  induction reg with
  | nil => simp [lookupEvent] at hl
  | cons q rest ih =>
    obtain ⟨k, v⟩ := q
    simp only [lookupEvent] at hl
    simp only [setEvent]
    by_cases hk : k = ev
    · subst hk
      simp
    · simp only [if_neg hk] at hl ⊢
      simp [ih hl]

theorem keys_setEvent_of_lookup_none (reg : Registry) (ev : String)
    (l : List ListenerRecord) (hl : lookupEvent reg ev = none) :
    (setEvent reg ev l).map Prod.fst = reg.map Prod.fst ++ [ev] := by
  induction reg with
  | nil => simp [setEvent]
  | cons q rest ih =>
    obtain ⟨k, v⟩ := q
    simp only [lookupEvent] at hl
    by_cases hk : k = ev
    · simp [hk] at hl
    · simp only [if_neg hk] at hl
      simp [setEvent, if_neg hk, ih hl]

theorem keys_removeEvent_sublist (reg : Registry) (ev : String) :
    ((removeEvent reg ev).map Prod.fst).Sublist (reg.map Prod.fst) := by
  induction reg with
  | nil => simp [removeEvent]
  | cons q rest ih =>
    obtain ⟨k, v⟩ := q
    simp only [removeEvent]
    by_cases hk : k = ev
    · simp only [if_pos hk, List.map_cons]
      exact ih.cons _
    · simp only [if_neg hk, List.map_cons]
      exact ih.cons₂ _

/-! Lemmas about record-sequence primitives. -/

theorem countIn_append (h : Nat) (l₁ l₂ : List ListenerRecord) :
    countIn h (l₁ ++ l₂) = countIn h l₁ + countIn h l₂ := by
  induction l₁ with
  | nil => simp [countIn]
  | cons r rest ih => simp [countIn, ih]; omega

theorem countIn_eq_zero (h : Nat) (l : List ListenerRecord) :
    countIn h l = 0 ↔ ∀ r ∈ l, r.handler ≠ h := by
  induction l with
  | nil => simp [countIn]
  | cons r rest ih =>
    simp only [countIn, List.mem_cons]
    by_cases hr : r.handler = h
    · simp [hr]
    · simp only [if_neg hr, Nat.zero_add, ih]
      constructor
      · rintro hall r' (rfl | hr')
        · exact hr
        · exact hall r' hr'
      · intro hall r' hr'
        exact hall r' (Or.inr hr')

theorem mem_removeHandler (l : List ListenerRecord) (h : Nat)
    (r : ListenerRecord) :
    r ∈ removeHandler l h ↔ r ∈ l ∧ r.handler ≠ h := by
  induction l with
  | nil => simp [removeHandler]
  | cons r' rest ih =>
    simp only [removeHandler]
    by_cases hr : r'.handler = h
    · simp only [if_pos hr, ih, List.mem_cons]
      constructor
      · rintro ⟨hm, hne⟩
        exact ⟨Or.inr hm, hne⟩
      · rintro ⟨(rfl | hm), hne⟩
        · exact absurd hr hne
        · exact ⟨hm, hne⟩
    · simp only [if_neg hr, List.mem_cons, ih]
      constructor
      · rintro (rfl | ⟨hm, hne⟩)
        · exact ⟨Or.inl rfl, hr⟩
        · exact ⟨Or.inr hm, hne⟩
      · rintro ⟨(rfl | hm), hne⟩
        · exact Or.inl rfl
        · exact Or.inr ⟨hm, hne⟩

theorem countIn_removeHandler_self (l : List ListenerRecord) (h : Nat) :
    countIn h (removeHandler l h) = 0 := by
  rw [countIn_eq_zero]
  intro r hr
  exact ((mem_removeHandler l h r).1 hr).2

theorem countIn_removeHandler_other (l : List ListenerRecord) (h h' : Nat)
    (hne : h' ≠ h) : countIn h' (removeHandler l h) = countIn h' l := by
  induction l with
  | nil => rfl
  | cons r rest ih =>
    by_cases hr : r.handler = h
    · have hne' : r.handler ≠ h' := by
        rw [hr]
        exact fun he => hne he.symm
      simp only [removeHandler, if_pos hr, countIn, if_neg hne', Nat.zero_add, ih]
    · simp only [removeHandler, if_neg hr, countIn, ih]

theorem countIn_removeHandler_le (l : List ListenerRecord) (h h' : Nat) :
    countIn h' (removeHandler l h) ≤ countIn h' l := by
  by_cases he : h' = h
  · subst he
    rw [countIn_removeHandler_self]
    exact Nat.zero_le _
  · rw [countIn_removeHandler_other l h h' he]

theorem removeHandler_of_no_match (l : List ListenerRecord) (h : Nat)
    (hno : ∀ r ∈ l, r.handler ≠ h) : removeHandler l h = l := by
  induction l with
  | nil => rfl
  | cons r rest ih =>
    simp only [removeHandler, if_neg (hno r (List.mem_cons_self _ _))]
    rw [ih fun r' hr' => hno r' (List.mem_cons_of_mem _ hr')]

theorem mem_removeFirstAux (l : List ListenerRecord) (t r : ListenerRecord)
    (hr : r ∈ removeFirstAux l t) : r ∈ l := by
  induction l with
  | nil => simp [removeFirstAux] at hr
  | cons r' rest ih =>
    simp only [removeFirstAux] at hr
    by_cases ht : r' = t
    · simp only [if_pos ht] at hr
      exact List.mem_cons_of_mem _ hr
    · simp only [if_neg ht, List.mem_cons] at hr
      rcases hr with h | h
      · simp [h]
      · exact List.mem_cons_of_mem _ (ih h)

theorem countIn_removeFirstAux_le (l : List ListenerRecord)
    (t : ListenerRecord) (h : Nat) :
    countIn h (removeFirstAux l t) ≤ countIn h l := by
  induction l with
  | nil => simp [removeFirstAux]
  | cons r rest ih =>
    simp only [removeFirstAux]
    by_cases ht : r = t
    · simp only [if_pos ht, countIn]
      omega
    · simp only [if_neg ht, countIn]
      omega

theorem countIn_removeFirstAux_of_mem (l : List ListenerRecord)
    (t : ListenerRecord) (h : Nat) (hh : t.handler = h) :
    t ∈ l → countIn h (removeFirstAux l t) + 1 = countIn h l := by
  induction l with
  | nil =>
    intro hmem
    simp at hmem
  | cons r rest ih =>
    intro hmem
    by_cases ht : r = t
    · subst ht
      simp [removeFirstAux, countIn, hh]
      omega
    · rcases List.mem_cons.1 hmem with h' | h'
      · exact absurd h'.symm ht
      · have hrec := ih h'
        simp only [removeFirstAux, if_neg ht, countIn]
        omega

/-! Characterisation of the state transformers through `listenersOf`. -/

theorem listenersOf_set (d : Dispatcher) (ev : String)
    (l : List ListenerRecord) (e : String) :
    listenersOf { d with registry := setEvent d.registry ev l } e =
      if e = ev then l else listenersOf d e := by
  simp only [listenersOf, lookupEvent_setEvent]
  by_cases he : e = ev <;> simp [he]

theorem listenersOf_remove (d : Dispatcher) (ev e : String) :
    listenersOf { d with registry := removeEvent d.registry ev } e =
      if e = ev then [] else listenersOf d e := by
  simp only [listenersOf, lookupEvent_removeEvent]
  by_cases he : e = ev <;> simp [he]

theorem listenersOf_onState (d : Dispatcher) (ev : String) (h : Nat) (e : String) :
    listenersOf (onState d ev h) e =
      if e = ev then listenersOf d ev ++ [⟨h, false⟩] else listenersOf d e := by
  simp [onState, listenersOf_set]

theorem listenersOf_onceState (d : Dispatcher) (ev : String) (h : Nat) (e : String) :
    listenersOf (onceState d ev h) e =
      if e = ev then listenersOf d ev ++ [⟨h, true⟩] else listenersOf d e := by
  simp [onceState, listenersOf_set]

theorem listenersOf_offState (d : Dispatcher) (ev : String) (h : Nat) (e : String) :
    listenersOf (offState d ev h) e =
      if e = ev then removeHandler (listenersOf d ev) h else listenersOf d e := by
  cases hl : lookupEvent d.registry ev with
  | none =>
    have hev : listenersOf d ev = [] := by simp [listenersOf, hl]
    simp only [offState, hl]
    by_cases he : e = ev
    · subst he
      simp [hev, removeHandler]
    · simp [he]
  | some l =>
    have hev : listenersOf d ev = l := by simp [listenersOf, hl]
    simp only [offState, hl]
    by_cases hrem : removeHandler l h = []
    · simp only [if_pos hrem, listenersOf_remove]
      by_cases he : e = ev <;> simp [he, hev, hrem]
    · simp only [if_neg hrem, listenersOf_set]
      by_cases he : e = ev <;> simp [he, hev]

theorem listenersOf_offAllState_none (d : Dispatcher) (e : String) :
    listenersOf (offAllState d none) e = [] := by
  simp [offAllState, listenersOf, lookupEvent]

theorem listenersOf_offAllState_some (d : Dispatcher) (ev e : String) :
    listenersOf (offAllState d (some ev)) e =
      if e = ev then [] else listenersOf d e := by
  simp [offAllState, listenersOf_remove]

theorem listenersOf_removeFirstRecord (d : Dispatcher) (ev : String)
    (t : ListenerRecord) (e : String) :
    listenersOf (removeFirstRecord d ev t) e =
      if e = ev then removeFirstAux (listenersOf d ev) t else listenersOf d e := by
  cases hl : lookupEvent d.registry ev with
  | none =>
    have hev : listenersOf d ev = [] := by simp [listenersOf, hl]
    simp only [removeFirstRecord, hl]
    by_cases he : e = ev
    · subst he
      simp [hev, removeFirstAux]
    · simp [he]
  | some l =>
    have hev : listenersOf d ev = l := by simp [listenersOf, hl]
    simp only [removeFirstRecord, hl]
    by_cases hrem : removeFirstAux l t = []
    · simp only [if_pos hrem, listenersOf_remove]
      by_cases he : e = ev <;> simp [he, hev, hrem]
    · simp only [if_neg hrem, listenersOf_set]
      by_cases he : e = ev <;> simp [he, hev]

/-! Validation and success/failure equations for the public operations. -/

theorem checkEventName_none_ok (ev : String) (hne : ev ≠ "") :
    checkEventName none ev = .ok () := by
  simp [checkEventName, hne]

theorem checkEventName_mem_ok (L : List String) (ev : String) (hne : ev ≠ "")
    (hmem : ev ∈ L) : checkEventName (some L) ev = .ok () := by
  simp [checkEventName, hne, hmem]

theorem checkEventName_not_allowed (L : List String) (ev : String)
    (hne : ev ≠ "") (hmem : ev ∉ L) :
    checkEventName (some L) ev = .error .eventNotAllowed := by
  simp [checkEventName, hne, hmem]

theorem register_ok (d : Dispatcher) (ev : String) (h : Nat)
    (hval : checkEventName d.allowedEvents ev = .ok ()) :
    register d ev h = .ok (onState d ev h) := by
  simp [register, hval]

theorem once_ok (d : Dispatcher) (ev : String) (h : Nat)
    (hval : checkEventName d.allowedEvents ev = .ok ()) :
    once d ev h = .ok (onceState d ev h) := by
  simp [once, hval]

theorem off_ok (d : Dispatcher) (ev : String) (h : Nat)
    (hval : checkEventName d.allowedEvents ev = .ok ()) :
    off d ev h = .ok (offState d ev h) := by
  simp [off, hval]

theorem offAll_some_ok (d : Dispatcher) (ev : String)
    (hval : checkEventName d.allowedEvents ev = .ok ()) :
    offAll d (some ev) = .ok (offAllState d (some ev)) := by
  simp [offAll, hval]

theorem emit_ok (env : Env) (d : Dispatcher) (ev : String) (p : JSVal)
    (hval : checkEventName d.allowedEvents ev = .ok ()) :
    emit env d ev p = .ok (runSnapshot env ev [p] (listenersOf d ev) d) := by
  simp [emit, hval]

theorem register_err (d : Dispatcher) (ev : String) (h : Nat)
    (er : DispatchError) (hval : checkEventName d.allowedEvents ev = .error er) :
    register d ev h = .error er := by
  simp [register, hval]

theorem once_err (d : Dispatcher) (ev : String) (h : Nat)
    (er : DispatchError) (hval : checkEventName d.allowedEvents ev = .error er) :
    once d ev h = .error er := by
  simp [once, hval]

theorem off_err (d : Dispatcher) (ev : String) (h : Nat)
    (er : DispatchError) (hval : checkEventName d.allowedEvents ev = .error er) :
    off d ev h = .error er := by
  simp [off, hval]

theorem offAll_some_err (d : Dispatcher) (ev : String)
    (er : DispatchError) (hval : checkEventName d.allowedEvents ev = .error er) :
    offAll d (some ev) = .error er := by
  simp [offAll, hval]

theorem emit_err (env : Env) (d : Dispatcher) (ev : String) (p : JSVal)
    (er : DispatchError) (hval : checkEventName d.allowedEvents ev = .error er) :
    emit env d ev p = .error er := by
  simp [emit, hval]

theorem hasListeners_err (d : Dispatcher) (ev : String)
    (er : DispatchError) (hval : checkEventName d.allowedEvents ev = .error er) :
    hasListeners d ev = .error er := by
  simp [hasListeners, hval]

/-! The emission loop visits exactly the snapshot, in order. -/

theorem runSnapshot_trace (env : Env) (ev : String) (args : List JSVal) :
    ∀ (s : List ListenerRecord) (d : Dispatcher),
      (runSnapshot env ev args s d).2 = s.map (fun r => (r.handler, args)) := by
  intro s
  induction s with
  | nil =>
    intro d
    rfl
  | cons r rest ih =>
    intro d
    simp [runSnapshot, ih]

theorem invCount_map_handlers (h : Nat) (args : List JSVal)
    (s : List ListenerRecord) :
    invCount h (s.map (fun r => (r.handler, args))) = countIn h s := by
  induction s with
  | nil => rfl
  | cons r rest ih => simp [invCount, countIn, ih]

theorem invCount_append (h : Nat) (t₁ t₂ : List (Nat × List JSVal)) :
    invCount h (t₁ ++ t₂) = invCount h t₁ + invCount h t₂ := by
  induction t₁ with
  | nil => simp [invCount]
  | cons e rest ih =>
    simp [invCount, ih]
    omega

/-! Inversion of successful operations. -/

theorem register_ok_inv (d : Dispatcher) (ev : String) (h : Nat) (d' : Dispatcher)
    (hd : register d ev h = .ok d') : d' = onState d ev h := by
  unfold register at hd
  cases hc : checkEventName d.allowedEvents ev with
  | error e =>
    rw [hc] at hd
    cases hd
  | ok u =>
    rw [hc] at hd
    cases hd
    rfl

theorem once_ok_inv (d : Dispatcher) (ev : String) (h : Nat) (d' : Dispatcher)
    (hd : once d ev h = .ok d') : d' = onceState d ev h := by
  unfold once at hd
  cases hc : checkEventName d.allowedEvents ev with
  | error e =>
    rw [hc] at hd
    cases hd
  | ok u =>
    rw [hc] at hd
    cases hd
    rfl

theorem off_ok_inv (d : Dispatcher) (ev : String) (h : Nat) (d' : Dispatcher)
    (hd : off d ev h = .ok d') : d' = offState d ev h := by
  unfold off at hd
  cases hc : checkEventName d.allowedEvents ev with
  | error e =>
    rw [hc] at hd
    cases hd
  | ok u =>
    rw [hc] at hd
    cases hd
    rfl

theorem offAll_ok_inv (d : Dispatcher) (ev : Option String) (d' : Dispatcher)
    (hd : offAll d ev = .ok d') : d' = offAllState d ev := by
  cases ev with
  | none =>
    cases hd
    rfl
  | some e =>
    simp only [offAll] at hd
    cases hc : checkEventName d.allowedEvents e with
    | error er =>
      rw [hc] at hd
      cases hd
    | ok u =>
      rw [hc] at hd
      cases hd
      rfl

theorem emit_ok_inv (env : Env) (d : Dispatcher) (ev : String) (p : JSVal)
    (res : Dispatcher × List (Nat × List JSVal)) (hd : emit env d ev p = .ok res) :
    res = runSnapshot env ev [p] (listenersOf d ev) d := by
  unfold emit at hd
  cases hc : checkEventName d.allowedEvents ev with
  | error e =>
    rw [hc] at hd
    cases hd
  | ok u =>
    rw [hc] at hd
    cases hd
    rfl

/-! The `hShrink` order: records of a fixed handler only disappear. -/

theorem hShrink_refl (h : Nat) (d : Dispatcher) : hShrink h d d :=
  fun _ => ⟨le_refl _, fun _ hr _ => hr⟩

theorem hShrink_trans (h : Nat) {d₁ d₂ d₃ : Dispatcher}
    (h12 : hShrink h d₁ d₂) (h23 : hShrink h d₂ d₃) : hShrink h d₁ d₃ :=
  fun e => ⟨le_trans (h23 e).1 (h12 e).1,
    fun r hr hh => (h12 e).2 r ((h23 e).2 r hr hh) hh⟩

theorem hShrink_onState (h : Nat) (d : Dispatcher) (ev : String) (h' : Nat)
    (hne : h' ≠ h) : hShrink h d (onState d ev h') := by
  intro e
  rw [listenersOf_onState]
  by_cases he : e = ev
  · rw [if_pos he, he]
    constructor
    · rw [countIn_append]
      simp [countIn, hne]
    · intro r hr hh
      rcases List.mem_append.1 hr with hm | hm
      · exact hm
      · rw [List.mem_singleton] at hm
        subst hm
        exact absurd hh hne
  · rw [if_neg he]
    exact ⟨le_refl _, fun _ hr _ => hr⟩

theorem hShrink_onceState (h : Nat) (d : Dispatcher) (ev : String) (h' : Nat)
    (hne : h' ≠ h) : hShrink h d (onceState d ev h') := by
  intro e
  rw [listenersOf_onceState]
  by_cases he : e = ev
  · rw [if_pos he, he]
    constructor
    · rw [countIn_append]
      simp [countIn, hne]
    · intro r hr hh
      rcases List.mem_append.1 hr with hm | hm
      · exact hm
      · rw [List.mem_singleton] at hm
        subst hm
        exact absurd hh hne
  · rw [if_neg he]
    exact ⟨le_refl _, fun _ hr _ => hr⟩

theorem hShrink_offState (h : Nat) (d : Dispatcher) (ev : String) (h' : Nat) :
    hShrink h d (offState d ev h') := by
  intro e
  rw [listenersOf_offState]
  by_cases he : e = ev
  · rw [if_pos he, he]
    exact ⟨countIn_removeHandler_le _ _ _,
      fun r hr _ => ((mem_removeHandler _ _ r).1 hr).1⟩
  · rw [if_neg he]
    exact ⟨le_refl _, fun _ hr _ => hr⟩

theorem hShrink_offAllState (h : Nat) (d : Dispatcher) (ev : Option String) :
    hShrink h d (offAllState d ev) := by
  intro e
  cases ev with
  | none =>
    rw [listenersOf_offAllState_none]
    exact ⟨Nat.zero_le _, fun r hr => absurd hr (List.not_mem_nil r)⟩
  | some e' =>
    rw [listenersOf_offAllState_some]
    by_cases he : e = e'
    · rw [if_pos he]
      exact ⟨Nat.zero_le _, fun r hr => absurd hr (List.not_mem_nil r)⟩
    · rw [if_neg he]
      exact ⟨le_refl _, fun _ hr _ => hr⟩

theorem hShrink_removeFirstRecord (h : Nat) (d : Dispatcher) (ev : String)
    (t : ListenerRecord) : hShrink h d (removeFirstRecord d ev t) := by
  intro e
  rw [listenersOf_removeFirstRecord]
  by_cases he : e = ev
  · rw [if_pos he, he]
    exact ⟨countIn_removeFirstAux_le _ _ _,
      fun r hr _ => mem_removeFirstAux _ _ _ hr⟩
  · rw [if_neg he]
    exact ⟨le_refl _, fun _ hr _ => hr⟩

theorem hShrink_recover (h : Nat) (d : Dispatcher)
    (x : Except DispatchError Dispatcher)
    (hok : ∀ d', x = .ok d' → hShrink h d d') : hShrink h d (recover x d) := by
  cases x with
  | ok d' => exact hok d' rfl
  | error e => exact hShrink_refl h d

theorem hShrink_applyAction (env : Env) (h : Nat) (d : Dispatcher) (h' : Nat)
    (henv : actionRegistersH h (env h') = false) :
    hShrink h d (applyAction env d h') := by
  cases ha : env h' with
  | pure =>
    simp only [applyAction, ha]
    exact hShrink_refl h d
  | throws =>
    simp only [applyAction, ha]
    exact hShrink_refl h d
  | doOn ev h2 =>
    rw [ha] at henv
    simp only [actionRegistersH, decide_eq_false_iff_not] at henv
    simp only [applyAction, ha]
    apply hShrink_recover
    intro d' hd'
    rw [register_ok_inv d ev h2 d' hd']
    exact hShrink_onState h d ev h2 henv
  | doOnce ev h2 =>
    rw [ha] at henv
    simp only [actionRegistersH, decide_eq_false_iff_not] at henv
    simp only [applyAction, ha]
    apply hShrink_recover
    intro d' hd'
    rw [once_ok_inv d ev h2 d' hd']
    exact hShrink_onceState h d ev h2 henv
  | doOff ev h2 =>
    simp only [applyAction, ha]
    apply hShrink_recover
    intro d' hd'
    rw [off_ok_inv d ev h2 d' hd']
    exact hShrink_offState h d ev h2
  | doOffAll ev =>
    simp only [applyAction, ha]
    apply hShrink_recover
    intro d' hd'
    rw [offAll_ok_inv d ev d' hd']
    exact hShrink_offAllState h d ev

theorem hShrink_stepRecord (env : Env) (h : Nat) (d : Dispatcher) (ev : String)
    (r : ListenerRecord) (henv : actionRegistersH h (env r.handler) = false) :
    hShrink h d (stepRecord env ev d r) := by
  unfold stepRecord
  by_cases hone : r.once = true
  · simp only [if_pos hone]
    exact hShrink_trans h (hShrink_applyAction env h d r.handler henv)
      (hShrink_removeFirstRecord h _ ev r)
  · simp only [if_neg hone]
    exact hShrink_applyAction env h d r.handler henv

theorem hShrink_runSnapshot (env : Env) (ev : String) (args : List JSVal)
    (h : Nat) (henv : ∀ h', actionRegistersH h (env h') = false) :
    ∀ (s : List ListenerRecord) (d : Dispatcher),
      hShrink h d (runSnapshot env ev args s d).1 := by
  intro s
  induction s with
  | nil =>
    intro d
    exact hShrink_refl h d
  | cons r rest ih =>
    intro d
    simp only [runSnapshot]
    exact hShrink_trans h (hShrink_stepRecord env h d ev r (henv r.handler)) (ih _)

theorem onceOnly_of_hShrink (h : Nat) (d d' : Dispatcher)
    (h1 : onceOnly d h) (h2 : hShrink h d d') : onceOnly d' h :=
  fun ev r hr hh => h1 ev r ((h2 ev).2 r hr hh) hh

theorem confined_of_hShrink (h : Nat) (ev : String) (d d' : Dispatcher)
    (h1 : confined d ev h) (h2 : hShrink h d d') : confined d' ev h :=
  fun e he => Nat.le_zero.1 ((h1 e he) ▸ (h2 e).1)

/-! Preservation of registry well-formedness. -/

theorem registryWF_setEvent (d : Dispatcher) (ev : String)
    (l : List ListenerRecord) (hwf : registryWF d) (hl : l ≠ []) :
    registryWF { d with registry := setEvent d.registry ev l } := by
  obtain ⟨hne, hnd⟩ := hwf
  constructor
  · intro q hq
    rcases mem_setEvent d.registry ev l q hq with h | h
    · rw [h]
      exact hl
    · exact hne q h
  · cases hlk : lookupEvent d.registry ev with
    | some l0 =>
      rw [keys_setEvent_of_lookup_some d.registry ev l l0 hlk]
      exact hnd
    | none =>
      rw [keys_setEvent_of_lookup_none d.registry ev l hlk]
      have hnotm : ev ∉ d.registry.map Prod.fst := by
        intro hc
        rcases List.mem_map.1 hc with ⟨q, hq, hq1⟩
        rcases lookupEvent_of_mem_key d.registry ev ⟨q, hq, hq1⟩ with ⟨l', hl'⟩
        rw [hl'] at hlk
        cases hlk
      refine (List.nodup_append).2 ⟨hnd, List.nodup_singleton ev, ?_⟩
      intro a ha hb
      rw [List.mem_singleton] at hb
      subst hb
      exact hnotm ha

theorem registryWF_removeEvent (d : Dispatcher) (ev : String)
    (hwf : registryWF d) :
    registryWF { d with registry := removeEvent d.registry ev } := by
  obtain ⟨hne, hnd⟩ := hwf
  constructor
  · intro q hq
    exact hne q (mem_removeEvent d.registry ev q hq)
  · exact List.Nodup.sublist (keys_removeEvent_sublist d.registry ev) hnd

theorem registryWF_onState (d : Dispatcher) (ev : String) (h : Nat)
    (hwf : registryWF d) : registryWF (onState d ev h) := by
  apply registryWF_setEvent d ev _ hwf
  simp

theorem registryWF_onceState (d : Dispatcher) (ev : String) (h : Nat)
    (hwf : registryWF d) : registryWF (onceState d ev h) := by
  apply registryWF_setEvent d ev _ hwf
  simp

theorem registryWF_offState (d : Dispatcher) (ev : String) (h : Nat)
    (hwf : registryWF d) : registryWF (offState d ev h) := by
  unfold offState
  cases hl : lookupEvent d.registry ev with
  | none => exact hwf
  | some l =>
    by_cases hrem : removeHandler l h = []
    · simp only [if_pos hrem]
      exact registryWF_removeEvent d ev hwf
    · simp only [if_neg hrem]
      exact registryWF_setEvent d ev _ hwf hrem

theorem registryWF_offAllState (d : Dispatcher) (ev : Option String)
    (hwf : registryWF d) : registryWF (offAllState d ev) := by
  cases ev with
  | none =>
    constructor
    · intro q hq
      simp [offAllState] at hq
    · simp [offAllState]
  | some e => exact registryWF_removeEvent d e hwf

theorem registryWF_removeFirstRecord (d : Dispatcher) (ev : String)
    (t : ListenerRecord) (hwf : registryWF d) :
    registryWF (removeFirstRecord d ev t) := by
  unfold removeFirstRecord
  cases hl : lookupEvent d.registry ev with
  | none => exact hwf
  | some l =>
    by_cases hrem : removeFirstAux l t = []
    · simp only [if_pos hrem]
      exact registryWF_removeEvent d ev hwf
    · simp only [if_neg hrem]
      exact registryWF_setEvent d ev _ hwf hrem

theorem registryWF_recover (d : Dispatcher)
    (x : Except DispatchError Dispatcher) (hwf : registryWF d)
    (hok : ∀ d', x = .ok d' → registryWF d') : registryWF (recover x d) := by
  cases x with
  | ok d' => exact hok d' rfl
  | error e => exact hwf

theorem registryWF_applyAction (env : Env) (d : Dispatcher) (h : Nat)
    (hwf : registryWF d) : registryWF (applyAction env d h) := by
  cases ha : env h with
  | pure =>
    simp only [applyAction, ha]
    exact hwf
  | throws =>
    simp only [applyAction, ha]
    exact hwf
  | doOn ev h2 =>
    simp only [applyAction, ha]
    apply registryWF_recover d _ hwf
    intro d' hd'
    rw [register_ok_inv d ev h2 d' hd']
    exact registryWF_onState d ev h2 hwf
  | doOnce ev h2 =>
    simp only [applyAction, ha]
    apply registryWF_recover d _ hwf
    intro d' hd'
    rw [once_ok_inv d ev h2 d' hd']
    exact registryWF_onceState d ev h2 hwf
  | doOff ev h2 =>
    simp only [applyAction, ha]
    apply registryWF_recover d _ hwf
    intro d' hd'
    rw [off_ok_inv d ev h2 d' hd']
    exact registryWF_offState d ev h2 hwf
  | doOffAll ev =>
    simp only [applyAction, ha]
    apply registryWF_recover d _ hwf
    intro d' hd'
    rw [offAll_ok_inv d ev d' hd']
    exact registryWF_offAllState d ev hwf

theorem registryWF_stepRecord (env : Env) (ev : String) (d : Dispatcher)
    (r : ListenerRecord) (hwf : registryWF d) :
    registryWF (stepRecord env ev d r) := by
  unfold stepRecord
  by_cases hone : r.once = true
  · simp only [if_pos hone]
    exact registryWF_removeFirstRecord _ ev r
      (registryWF_applyAction env d r.handler hwf)
  · simp only [if_neg hone]
    exact registryWF_applyAction env d r.handler hwf

theorem registryWF_runSnapshot (env : Env) (ev : String) (args : List JSVal) :
    ∀ (s : List ListenerRecord) (d : Dispatcher), registryWF d →
      registryWF (runSnapshot env ev args s d).1 := by
  intro s
  induction s with
  | nil =>
    intro d hwf
    exact hwf
  | cons r rest ih =>
    intro d hwf
    simp only [runSnapshot]
    exact ih _ (registryWF_stepRecord env ev d r hwf)

theorem registryWF_step (env : Env) (d : Dispatcher) (op : Op)
    (hwf : registryWF d) : registryWF (step env d op).1 := by
  cases op with
  | opOn ev h =>
    simp only [step]
    apply registryWF_recover d _ hwf
    intro d' hd'
    rw [register_ok_inv d ev h d' hd']
    exact registryWF_onState d ev h hwf
  | opOnce ev h =>
    simp only [step]
    apply registryWF_recover d _ hwf
    intro d' hd'
    rw [once_ok_inv d ev h d' hd']
    exact registryWF_onceState d ev h hwf
  | opOff ev h =>
    simp only [step]
    apply registryWF_recover d _ hwf
    intro d' hd'
    rw [off_ok_inv d ev h d' hd']
    exact registryWF_offState d ev h hwf
  | opOffAll ev =>
    simp only [step]
    apply registryWF_recover d _ hwf
    intro d' hd'
    rw [offAll_ok_inv d ev d' hd']
    exact registryWF_offAllState d ev hwf
  | opEmit ev p =>
    simp only [step]
    cases he : emit env d ev p with
    | ok res =>
      rw [emit_ok_inv env d ev p res he]
      exact registryWF_runSnapshot env ev [p] (listenersOf d ev) d hwf
    | error er => exact hwf

/-! Core accounting for the at-most-once guarantee of `once`. -/

theorem listenerRecord_ext (r r' : ListenerRecord)
    (h1 : r.handler = r'.handler) (h2 : r.once = r'.once) : r = r' := by
  cases r
  cases r'
  rw [ListenerRecord.mk.injEq]
  exact ⟨h1, h2⟩

theorem runSnapshot_home_drain (env : Env) (ev : String) (args : List JSVal)
    (h : Nat) (henv : ∀ h', actionRegistersH h (env h') = false) :
    ∀ (s : List ListenerRecord) (d : Dispatcher),
      onceOnly d h →
      (∀ r ∈ s, r.handler = h → r.once = true) →
      countIn h (listenersOf d ev) ≤ countIn h s →
      countIn h (listenersOf (runSnapshot env ev args s d).1 ev) = 0 := by
  intro s
  induction s with
  | nil =>
    intro d _ _ hle
    simp only [countIn] at hle
    simpa [runSnapshot] using Nat.le_zero.1 hle
  | cons r rest ih =>
    intro d hOnce hs hle
    have hrest : ∀ r' ∈ rest, r'.handler = h → r'.once = true :=
      fun r' hr' => hs r' (List.mem_cons_of_mem r hr')
    simp only [runSnapshot]
    by_cases hr : r.handler = h
    · have hronce : r.once = true := hs r (List.mem_cons_self r rest) hr
      have hcons : countIn h (r :: rest) = 1 + countIn h rest := by
        simp [countIn, hr]
      rw [hcons] at hle
      have hstep : stepRecord env ev d r =
          removeFirstRecord (applyAction env d r.handler) ev r := by
        unfold stepRecord
        rw [if_pos hronce]
      have hsh1 : hShrink h d (applyAction env d r.handler) :=
        hShrink_applyAction env h d r.handler (henv r.handler)
      have hOnce1 : onceOnly (applyAction env d r.handler) h :=
        onceOnly_of_hShrink h d _ hOnce hsh1
      have hOnce2 : onceOnly (stepRecord env ev d r) h :=
        onceOnly_of_hShrink h d _ hOnce
          (hShrink_stepRecord env h d ev r (henv r.handler))
      have hbound : countIn h (listenersOf (stepRecord env ev d r) ev) ≤
          countIn h rest := by
        rw [hstep, listenersOf_removeFirstRecord, if_pos (rfl : ev = ev)]
        by_cases hmem : r ∈ listenersOf (applyAction env d r.handler) ev
        · have hdec := countIn_removeFirstAux_of_mem
            (listenersOf (applyAction env d r.handler) ev) r h hr hmem
          have h1le : countIn h (listenersOf (applyAction env d r.handler) ev) ≤
              countIn h (listenersOf d ev) := (hsh1 ev).1
          omega
        · have hz : countIn h (listenersOf (applyAction env d r.handler) ev) = 0 := by
            rw [countIn_eq_zero]
            intro r' hr' hh'
            have hro : r'.once = true := hOnce1 ev r' hr' hh'
            have hrr : r' = r :=
              listenerRecord_ext r' r (by rw [hh', hr]) (by rw [hro, hronce])
            exact hmem (hrr ▸ hr')
          have hlez := countIn_removeFirstAux_le
            (listenersOf (applyAction env d r.handler) ev) r h
          omega
      exact ih (stepRecord env ev d r) hOnce2 hrest hbound
    · have hcons : countIn h (r :: rest) = countIn h rest := by
        simp [countIn, hr]
      rw [hcons] at hle
      have hsh : hShrink h d (stepRecord env ev d r) :=
        hShrink_stepRecord env h d ev r (henv r.handler)
      have hOnce2 : onceOnly (stepRecord env ev d r) h :=
        onceOnly_of_hShrink h d _ hOnce hsh
      have hbound : countIn h (listenersOf (stepRecord env ev d r) ev) ≤
          countIn h rest :=
        le_trans (hsh ev).1 hle
      exact ih (stepRecord env ev d r) hOnce2 hrest hbound

theorem step_once_bound (env : Env) (ev : String) (h : Nat) (d : Dispatcher)
    (op : Op) (henv : ∀ h', actionRegistersH h (env h') = false)
    (hop : opRegistersH h op = false)
    (hOnce : onceOnly d h) (hconf : confined d ev h) :
    onceOnly (step env d op).1 h ∧ confined (step env d op).1 ev h ∧
      invCount h (step env d op).2 + countIn h (listenersOf (step env d op).1 ev) ≤
        countIn h (listenersOf d ev) := by
  have hpack : ∀ d' : Dispatcher, hShrink h d d' →
      onceOnly d' h ∧ confined d' ev h ∧
        0 + countIn h (listenersOf d' ev) ≤ countIn h (listenersOf d ev) := by
    intro d' hsh
    refine ⟨onceOnly_of_hShrink h d d' hOnce hsh,
      confined_of_hShrink h ev d d' hconf hsh, ?_⟩
    rw [Nat.zero_add]
    exact (hsh ev).1
  cases op with
  | opOn e h2 =>
    simp only [opRegistersH, decide_eq_false_iff_not] at hop
    simp only [step, invCount]
    apply hpack
    apply hShrink_recover
    intro d' hd'
    rw [register_ok_inv d e h2 d' hd']
    exact hShrink_onState h d e h2 hop
  | opOnce e h2 =>
    simp only [opRegistersH, decide_eq_false_iff_not] at hop
    simp only [step, invCount]
    apply hpack
    apply hShrink_recover
    intro d' hd'
    rw [once_ok_inv d e h2 d' hd']
    exact hShrink_onceState h d e h2 hop
  | opOff e h2 =>
    simp only [step, invCount]
    apply hpack
    apply hShrink_recover
    intro d' hd'
    rw [off_ok_inv d e h2 d' hd']
    exact hShrink_offState h d e h2
  | opOffAll e =>
    simp only [step, invCount]
    apply hpack
    apply hShrink_recover
    intro d' hd'
    rw [offAll_ok_inv d e d' hd']
    exact hShrink_offAllState h d e
  | opEmit e p =>
    cases hem : emit env d e p with
    | error er =>
      have hstep : step env d (Op.opEmit e p) = (d, []) := by
        simp [step, hem]
      rw [hstep]
      simpa [invCount] using hpack d (hShrink_refl h d)
    | ok res =>
      have hstep : step env d (Op.opEmit e p) = res := by
        simp [step, hem]
      rw [hstep, emit_ok_inv env d e p res hem]
      have hsh : hShrink h d (runSnapshot env e [p] (listenersOf d e) d).1 :=
        hShrink_runSnapshot env e [p] h henv (listenersOf d e) d
      have htr : invCount h (runSnapshot env e [p] (listenersOf d e) d).2 =
          countIn h (listenersOf d e) := by
        rw [runSnapshot_trace, invCount_map_handlers]
      refine ⟨onceOnly_of_hShrink h d _ hOnce hsh,
        confined_of_hShrink h ev d _ hconf hsh, ?_⟩
      rw [htr]
      by_cases he : e = ev
      · subst he
        have hz : countIn h (listenersOf (runSnapshot env e [p] (listenersOf d e) d).1 e) = 0 :=
          runSnapshot_home_drain env e [p] h henv (listenersOf d e) d hOnce
            (fun r hr hh => hOnce e r hr hh) (le_refl _)
        omega
      · have hz : countIn h (listenersOf d e) = 0 := hconf e he
        have hle : countIn h (listenersOf (runSnapshot env e [p] (listenersOf d e) d).1 ev) ≤
            countIn h (listenersOf d ev) := (hsh ev).1
        omega

theorem run_once_bound (env : Env) (ev : String) (h : Nat)
    (henv : ∀ h', actionRegistersH h (env h') = false) :
    ∀ (ops : List Op) (d : Dispatcher) (spent : Nat),
      (∀ op ∈ ops, opRegistersH h op = false) →
      onceOnly d h → confined d ev h →
      spent + countIn h (listenersOf d ev) ≤ 1 →
      spent + invCount h (run env d ops).2 +
        countIn h (listenersOf (run env d ops).1 ev) ≤ 1 := by
  intro ops
  induction ops with
  | nil =>
    intro d spent _ _ _ hinv
    simpa [run, invCount] using hinv
  | cons op rest ih =>
    intro d spent hops hOnce hconf hinv
    have hop : opRegistersH h op = false := hops op (List.mem_cons_self op rest)
    have hrest : ∀ op' ∈ rest, opRegistersH h op' = false :=
      fun op' hm => hops op' (List.mem_cons_of_mem op hm)
    obtain ⟨hOnce', hconf', hbound⟩ :=
      step_once_bound env ev h d op henv hop hOnce hconf
    have hnext := ih (step env d op).1 (spent + invCount h (step env d op).2)
      hrest hOnce' hconf' (by omega)
    simp only [run, invCount_append]
    omega

/-! Emission as snapshot state plus snapshot trace. -/

theorem emit_eq_snapshot_pair (env : Env) (d : Dispatcher) (ev : String)
    (p : JSVal) (hval : checkEventName d.allowedEvents ev = .ok ()) :
    emit env d ev p = .ok ((runSnapshot env ev [p] (listenersOf d ev) d).1,
      (listenersOf d ev).map (fun r => (r.handler, [p]))) := by
  rw [emit_ok env d ev p hval]
  exact congrArg Except.ok (Prod.ext_iff.2
    ⟨rfl, runSnapshot_trace env ev [p] (listenersOf d ev) d⟩)

theorem emit_trace_eq (env : Env) (d : Dispatcher) (ev : String) (p : JSVal)
    (d' : Dispatcher) (tr : List (Nat × List JSVal))
    (hem : emit env d ev p = .ok (d', tr)) :
    tr = (listenersOf d ev).map (fun r => (r.handler, [p])) := by
  have h1 := emit_ok_inv env d ev p (d', tr) hem
  have h2 : tr = (runSnapshot env ev [p] (listenersOf d ev) d).2 :=
    congrArg Prod.snd h1
  rw [h2, runSnapshot_trace]

/-- C2: emission iterates over a point-in-time snapshot of the listener
sequence taken when `emit` begins. For every environment of listener
behaviours, including ones that mutate the registry mid-emission, the
invocation trace is exactly the snapshot in order, each listener receiving
the payload; hence a listener absent from the snapshot (e.g. added
mid-emission by another listener) is never invoked in that pass, a listener
in the snapshot is invoked even if another listener removed it mid-emission,
and a once-flagged listener invoked as the sole snapshot entry that
re-registers itself during its own invocation is invoked exactly once in the
pass, with its removal happening immediately after its invocation so that
exactly the fresh registration survives. -/
theorem emit_snapshot_semantics (env : Env) (d : Dispatcher) (ev : String)
    (p : JSVal) (hval : checkEventName d.allowedEvents ev = .ok ()) :
    (∃ d', emit env d ev p =
        .ok (d', (listenersOf d ev).map (fun r => (r.handler, [p])))) ∧
    (∀ h2, (∀ r ∈ listenersOf d ev, r.handler ≠ h2) →
      ∀ d' tr, emit env d ev p = .ok (d', tr) → invCount h2 tr = 0) ∧
    (∀ r ∈ listenersOf d ev,
      ∀ d' tr, emit env d ev p = .ok (d', tr) → (r.handler, [p]) ∈ tr) ∧
    (∀ h, listenersOf d ev = [⟨h, true⟩] → env h = .doOnce ev h →
      ∃ d', emit env d ev p = .ok (d', [(h, [p])]) ∧
        listenersOf d' ev = [⟨h, true⟩]) := by
  refine ⟨⟨(runSnapshot env ev [p] (listenersOf d ev) d).1,
      emit_eq_snapshot_pair env d ev p hval⟩, ?_, ?_, ?_⟩
  · intro h2 hno d' tr hem
    rw [emit_trace_eq env d ev p d' tr hem, invCount_map_handlers]
    rw [countIn_eq_zero]
    exact hno
  · intro r hr d' tr hem
    rw [emit_trace_eq env d ev p d' tr hem]
    exact List.mem_map_of_mem _ hr
  · intro h hLs hEnv
    have happ : applyAction env d h = onceState d ev h := by
      simp only [applyAction, hEnv]
      rw [once_ok d ev h hval]
      rfl
    have hstep : stepRecord env ev d ⟨h, true⟩ =
        removeFirstRecord (onceState d ev h) ev ⟨h, true⟩ := by
      show removeFirstRecord (applyAction env d h) ev ⟨h, true⟩ =
        removeFirstRecord (onceState d ev h) ev ⟨h, true⟩
      rw [happ]
    have he := emit_eq_snapshot_pair env d ev p hval
    rw [hLs] at he
    refine ⟨(runSnapshot env ev [p] [(⟨h, true⟩ : ListenerRecord)] d).1, ?_, ?_⟩
    · rw [he]
      simp
    · have hfin : (runSnapshot env ev [p] [(⟨h, true⟩ : ListenerRecord)] d).1 =
          removeFirstRecord (onceState d ev h) ev ⟨h, true⟩ := by
        simp only [runSnapshot]
        exact hstep
      rw [hfin, listenersOf_removeFirstRecord, if_pos (rfl : ev = ev),
        listenersOf_onceState, if_pos (rfl : ev = ev), hLs]
      simp [removeFirstAux]

/-- C3: listener failures are isolated. Even when some listener in the
snapshot throws during its invocation, `emit` still returns normally (an
`ok` result, never propagating the exception) and every listener in the
snapshot, including every one after the throwing one, is invoked exactly
once with the payload: the trace is the full snapshot, so each handler is
invoked exactly as many times as it has records. -/
theorem emit_isolates_listener_failures (env : Env) (d : Dispatcher)
    (ev : String) (p : JSVal)
    (hval : checkEventName d.allowedEvents ev = .ok ())
    (hthrow : ∃ r ∈ listenersOf d ev, env r.handler = .throws) :
    ∃ d', emit env d ev p =
        .ok (d', (listenersOf d ev).map (fun r => (r.handler, [p]))) ∧
      ∀ h2, invCount h2 ((listenersOf d ev).map (fun r => (r.handler, [p]))) =
        countIn h2 (listenersOf d ev) := by
  exact ⟨(runSnapshot env ev [p] (listenersOf d ev) d).1,
    emit_eq_snapshot_pair env d ev p hval,
    fun h2 => invCount_map_handlers h2 [p] (listenersOf d ev)⟩

/-- C4: for every valid event name and payload, registering a handler then
emitting invokes it exactly once per registered record with exactly the
payload as the sole argument, and registering a second handler afterwards
makes it fire after the first: the emission trace is the prior snapshot
followed by the newly registered handlers in registration order,
deterministically. -/
theorem register_emit_order_payload (env : Env) (d : Dispatcher) (ev : String)
    (h1 h2 : Nat) (p : JSVal)
    (hval : checkEventName d.allowedEvents ev = .ok ()) :
    ∃ d1 d2,
      register d ev h1 = .ok d1 ∧
      (∃ d', emit env d1 ev p = .ok (d',
        (listenersOf d ev).map (fun r => (r.handler, [p])) ++ [(h1, [p])])) ∧
      register d1 ev h2 = .ok d2 ∧
      (∃ d'', emit env d2 ev p = .ok (d'',
        (listenersOf d ev).map (fun r => (r.handler, [p])) ++
          [(h1, [p]), (h2, [p])])) := by
  have hv1 : checkEventName (onState d ev h1).allowedEvents ev = .ok () := hval
  have hv2 : checkEventName (onState (onState d ev h1) ev h2).allowedEvents ev =
      .ok () := hval
  have hl1 : listenersOf (onState d ev h1) ev =
      listenersOf d ev ++ [⟨h1, false⟩] := by
    rw [listenersOf_onState, if_pos (rfl : ev = ev)]
  have hl2 : listenersOf (onState (onState d ev h1) ev h2) ev =
      (listenersOf d ev ++ [⟨h1, false⟩]) ++ [⟨h2, false⟩] := by
    rw [listenersOf_onState, if_pos (rfl : ev = ev), hl1]
  refine ⟨onState d ev h1, onState (onState d ev h1) ev h2,
    register_ok d ev h1 hval, ?_, register_ok (onState d ev h1) ev h2 hv1, ?_⟩
  · have he := emit_eq_snapshot_pair env (onState d ev h1) ev p hv1
    rw [hl1] at he
    refine ⟨(runSnapshot env ev [p]
      (listenersOf d ev ++ [(⟨h1, false⟩ : ListenerRecord)]) (onState d ev h1)).1, ?_⟩
    rw [he]
    simp
  · have he := emit_eq_snapshot_pair env (onState (onState d ev h1) ev h2) ev p hv2
    rw [hl2] at he
    refine ⟨(runSnapshot env ev [p]
      ((listenersOf d ev ++ [(⟨h1, false⟩ : ListenerRecord)]) ++
        [(⟨h2, false⟩ : ListenerRecord)])
      (onState (onState d ev h1) ev h2)).1, ?_⟩
    rw [he]
    simp

/-- C5: a handler registered via `once` is invoked at most one time in total
for that registration: starting from a state holding no record of the
handler, after `once` registers it, any subsequent sequence of API calls —
however many emissions it contains, and whatever the other listeners do, as
long as neither the calls nor the listener behaviours register that handler
again — invokes the handler at most once in total, and once invoked no
record of it remains in the registry (it is removed before any subsequent
emission considers it). -/
theorem registerOnce_at_most_once (env : Env) (d : Dispatcher) (ev : String)
    (h : Nat) (ops : List Op) (d1 : Dispatcher)
    (hval : checkEventName d.allowedEvents ev = .ok ())
    (hnone : ∀ e, countIn h (listenersOf d e) = 0)
    (henv : ∀ h', actionRegistersH h (env h') = false)
    (hops : ∀ op ∈ ops, opRegistersH h op = false)
    (hreg : once d ev h = .ok d1) :
    invCount h (run env d1 ops).2 +
      countIn h (listenersOf (run env d1 ops).1 ev) ≤ 1 := by
  have hd1 : d1 = onceState d ev h := once_ok_inv d ev h d1 hreg
  subst hd1
  have hOnce : onceOnly (onceState d ev h) h := by
    intro e r hr hh
    rw [listenersOf_onceState] at hr
    by_cases he : e = ev
    · rw [if_pos he] at hr
      rcases List.mem_append.1 hr with hm | hm
      · exact absurd hh ((countIn_eq_zero h _).1 (hnone ev) r hm)
      · rw [List.mem_singleton] at hm
        subst hm
        rfl
    · rw [if_neg he] at hr
      exact absurd hh ((countIn_eq_zero h _).1 (hnone e) r hr)
  have hconf : confined (onceState d ev h) ev h := by
    intro e he
    rw [listenersOf_onceState, if_neg he]
    exact hnone e
  have hm1 : countIn h (listenersOf (onceState d ev h) ev) = 1 := by
    rw [listenersOf_onceState, if_pos (rfl : ev = ev), countIn_append]
    simp [countIn, hnone ev]
  have hrun := run_once_bound env ev h henv ops (onceState d ev h) 0 hops hOnce
    hconf (by omega)
  omega

/-- C6: `off` with a valid event name removes exactly the records under that
event whose stored callable is reference-equal to the handler — all matching
records, not just the first — leaves the records of every other event (and
the non-matching records of this event) untouched, never raises, and is a
silent no-op leaving the state identical when the handler has no record
under the event (in particular when the event has no listeners at all). -/
theorem off_removes_matching_records (d : Dispatcher) (ev : String) (h : Nat)
    (hval : checkEventName d.allowedEvents ev = .ok ()) :
    ∃ d2, off d ev h = .ok d2 ∧
      listenersOf d2 ev = removeHandler (listenersOf d ev) h ∧
      (∀ r, r ∈ listenersOf d2 ev ↔ r ∈ listenersOf d ev ∧ r.handler ≠ h) ∧
      (∀ h', h' ≠ h →
        countIn h' (listenersOf d2 ev) = countIn h' (listenersOf d ev)) ∧
      countIn h (listenersOf d2 ev) = 0 ∧
      (∀ e, e ≠ ev → listenersOf d2 e = listenersOf d e) ∧
      (registryWF d → (∀ r ∈ listenersOf d ev, r.handler ≠ h) → d2 = d) := by
  refine ⟨offState d ev h, off_ok d ev h hval, ?_, ?_, ?_, ?_, ?_, ?_⟩
  · rw [listenersOf_offState, if_pos (rfl : ev = ev)]
  · intro r
    rw [listenersOf_offState, if_pos (rfl : ev = ev)]
    exact mem_removeHandler _ _ r
  · intro h' hne
    rw [listenersOf_offState, if_pos (rfl : ev = ev)]
    exact countIn_removeHandler_other _ h h' hne
  · rw [listenersOf_offState, if_pos (rfl : ev = ev)]
    exact countIn_removeHandler_self _ h
  · intro e he
    rw [listenersOf_offState, if_neg he]
  · intro hwf hno
    cases hl : lookupEvent d.registry ev with
    | none => simp only [offState, hl]
    | some l =>
      have hev : listenersOf d ev = l := by simp [listenersOf, hl]
      have hrh : removeHandler l h = l := by
        apply removeHandler_of_no_match
        intro r hr
        apply hno r
        rw [hev]
        exact hr
      have hlne : l ≠ [] := hwf.1 (ev, l) (lookupEvent_mem d.registry ev l hl)
      simp only [offState, hl]
      rw [hrh, if_neg hlne, setEvent_lookup_self d.registry ev l hl]

/-! Helper lemmas for allow-list comparison and `hasListeners`. -/

theorem removeFirstRecord_registry_congr (d d' : Dispatcher) (ev : String)
    (t : ListenerRecord) (hr : d.registry = d'.registry) :
    (removeFirstRecord d ev t).registry = (removeFirstRecord d' ev t).registry := by
  unfold removeFirstRecord
  rw [hr]
  cases hl : lookupEvent d'.registry ev with
  | none =>
    simp only [hl]
    exact hr
  | some l =>
    simp only [hl]
    by_cases hrem : removeFirstAux l t = []
    · rw [if_pos hrem, if_pos hrem]
    · rw [if_neg hrem, if_neg hrem]

theorem offState_registry_congr (d d' : Dispatcher) (ev : String) (h : Nat)
    (hr : d.registry = d'.registry) :
    (offState d ev h).registry = (offState d' ev h).registry := by
  unfold offState
  rw [hr]
  cases hl : lookupEvent d'.registry ev with
  | none =>
    simp only [hl]
    exact hr
  | some l =>
    simp only [hl]
    by_cases hrem : removeHandler l h = []
    · rw [if_pos hrem, if_pos hrem]
    · rw [if_neg hrem, if_neg hrem]

theorem stepRecord_registry_pure (env : Env) (ev : String) (r : ListenerRecord)
    (d d' : Dispatcher) (henvp : ∀ h', env h' = .pure)
    (hr : d.registry = d'.registry) :
    (stepRecord env ev d r).registry = (stepRecord env ev d' r).registry := by
  unfold stepRecord
  have ha : applyAction env d r.handler = d := by
    simp [applyAction, henvp r.handler]
  have ha' : applyAction env d' r.handler = d' := by
    simp [applyAction, henvp r.handler]
  rw [ha, ha']
  by_cases hone : r.once = true
  · rw [if_pos hone, if_pos hone]
    exact removeFirstRecord_registry_congr d d' ev r hr
  · rw [if_neg hone, if_neg hone]
    exact hr

theorem runSnapshot_registry_pure (env : Env) (ev : String) (args : List JSVal)
    (henvp : ∀ h', env h' = .pure) :
    ∀ (s : List ListenerRecord) (d d' : Dispatcher), d.registry = d'.registry →
      (runSnapshot env ev args s d).1.registry =
        (runSnapshot env ev args s d').1.registry := by
  intro s
  induction s with
  | nil =>
    intro d d' hr
    exact hr
  | cons r rest ih =>
    intro d d' hr
    simp only [runSnapshot]
    exact ih _ _ (stepRecord_registry_pure env ev r d d' henvp hr)

theorem hasListeners_true_of_ne (d : Dispatcher) (ev : String)
    (hval : checkEventName d.allowedEvents ev = .ok ())
    (hne : listenersOf d ev ≠ []) : hasListeners d ev = .ok true := by
  unfold hasListeners
  rw [hval]
  cases hl : lookupEvent d.registry ev with
  | none =>
    exact absurd (by simp [listenersOf, hl]) hne
  | some l =>
    have hev : listenersOf d ev = l := by simp [listenersOf, hl]
    rw [hev] at hne
    cases l with
    | nil => exact absurd rfl hne
    | cons a as => rfl

theorem hasListeners_false_of_eq (d : Dispatcher) (ev : String)
    (hval : checkEventName d.allowedEvents ev = .ok ())
    (he : listenersOf d ev = []) : hasListeners d ev = .ok false := by
  unfold hasListeners
  rw [hval]
  cases hl : lookupEvent d.registry ev with
  | none => rfl
  | some l =>
    have hev : listenersOf d ev = l := by simp [listenersOf, hl]
    rw [hev] at he
    subst he
    rfl

/-- C7: with an allow-list configured, each of `register` (on), `once`,
`off`, `emit` and `hasListeners` called with a well-formed (non-empty) event
name absent from the allow-list fails with `EventNotAllowed` — returning no
mutated state, so the registry is unchanged — while on a member name each
operation behaves exactly as in unrestricted mode: the resulting registry of
`register`/`once`/`off`, the `hasListeners` answer, the emission trace, and
(for listeners that do not re-enter the API) the post-emission registry all
coincide with those of the same dispatcher stripped of its allow-list. -/
theorem allowlist_enforcement (env : Env) (d : Dispatcher) (L : List String)
    (ev : String) (h : Nat) (p : JSVal)
    (hA : d.allowedEvents = some L) (hne : ev ≠ "") :
    (ev ∉ L →
      register d ev h = .error .eventNotAllowed ∧
      once d ev h = .error .eventNotAllowed ∧
      off d ev h = .error .eventNotAllowed ∧
      emit env d ev p = .error .eventNotAllowed ∧
      hasListeners d ev = .error .eventNotAllowed) ∧
    (ev ∈ L →
      (register d ev h).map Dispatcher.registry =
        (register (unrestricted d) ev h).map Dispatcher.registry ∧
      (once d ev h).map Dispatcher.registry =
        (once (unrestricted d) ev h).map Dispatcher.registry ∧
      (off d ev h).map Dispatcher.registry =
        (off (unrestricted d) ev h).map Dispatcher.registry ∧
      hasListeners d ev = hasListeners (unrestricted d) ev ∧
      (emit env d ev p).map (fun res => res.2) =
        (emit env (unrestricted d) ev p).map (fun res => res.2) ∧
      ((∀ h', env h' = .pure) →
        (emit env d ev p).map (fun res => res.1.registry) =
          (emit env (unrestricted d) ev p).map (fun res => res.1.registry))) := by
  constructor
  · intro hmem
    have hval : checkEventName d.allowedEvents ev = .error .eventNotAllowed := by
      rw [hA]
      exact checkEventName_not_allowed L ev hne hmem
    exact ⟨register_err d ev h _ hval, once_err d ev h _ hval,
      off_err d ev h _ hval, emit_err env d ev p _ hval,
      hasListeners_err d ev _ hval⟩
  · intro hmem
    have hval : checkEventName d.allowedEvents ev = .ok () := by
      rw [hA]
      exact checkEventName_mem_ok L ev hne hmem
    have hval' : checkEventName (unrestricted d).allowedEvents ev = .ok () :=
      checkEventName_none_ok ev hne
    refine ⟨?_, ?_, ?_, ?_, ?_, ?_⟩
    · rw [register_ok d ev h hval, register_ok (unrestricted d) ev h hval']
      rfl
    · rw [once_ok d ev h hval, once_ok (unrestricted d) ev h hval']
      rfl
    · rw [off_ok d ev h hval, off_ok (unrestricted d) ev h hval']
      simp only [Except.map]
      exact congrArg Except.ok (offState_registry_congr d (unrestricted d) ev h rfl)
    · by_cases hl : listenersOf d ev = []
      · rw [hasListeners_false_of_eq d ev hval hl,
          hasListeners_false_of_eq (unrestricted d) ev hval' hl]
      · rw [hasListeners_true_of_ne d ev hval hl,
          hasListeners_true_of_ne (unrestricted d) ev hval' hl]
    · rw [emit_eq_snapshot_pair env d ev p hval,
        emit_eq_snapshot_pair env (unrestricted d) ev p hval']
      rfl
    · intro hpure
      rw [emit_ok env d ev p hval, emit_ok env (unrestricted d) ev p hval']
      exact congrArg Except.ok
        (runSnapshot_registry_pure env ev [p] hpure (listenersOf d ev) d
          (unrestricted d) rfl)

/-- C8: composition raises `AlreadyComposed` whenever the target already
defines any of the six reserved operation names (and, being a pure failure,
leaves the target unmodified); when no reserved name conflicts, it succeeds,
defining exactly the six operations after the target's own members — every
pre-existing member is still present — and pairing the returned (mutated)
target with a fresh empty dispatcher state carrying the requested
allow-list. -/
theorem mixin_conflict_and_composition (target : JSObject)
    (allowed : Option (List String))
    (hA : validAllowedEvents allowed = true) :
    ((∃ n ∈ reservedNames, n ∈ target.props) →
      mixin target allowed = .error .alreadyComposed) ∧
    ((∀ n ∈ reservedNames, n ∉ target.props) →
      mixin target allowed =
        .ok ({ props := target.props ++ reservedNames },
          { allowedEvents := allowed, registry := [] }) ∧
      (∀ m ∈ target.props,
        m ∈ ({ props := target.props ++ reservedNames } : JSObject).props) ∧
      (∀ n ∈ reservedNames,
        n ∈ ({ props := target.props ++ reservedNames } : JSObject).props)) := by
  have hA' : ¬ validAllowedEvents allowed = false := by
    rw [hA]
    exact fun hc => Bool.noConfusion hc
  constructor
  · intro hconf
    unfold mixin
    rw [if_neg hA', if_pos hconf]
  · intro hnoconf
    have hnc : ¬ ∃ n ∈ reservedNames, n ∈ target.props := by
      rintro ⟨n, hn, hmem⟩
      exact hnoconf n hn hmem
    refine ⟨?_, ?_, ?_⟩
    · unfold mixin
      rw [if_neg hA', if_neg hnc]
    · intro m hm
      exact List.mem_append_left _ hm
    · intro n hn
      exact List.mem_append_right _ hn

theorem mem_removeEvent_key_ne (reg : Registry) (ev : String)
    (q : String × List ListenerRecord) (hq : q ∈ removeEvent reg ev) :
    q.1 ≠ ev := by
  induction reg with
  | nil => simp [removeEvent] at hq
  | cons p rest ih =>
    obtain ⟨k, v⟩ := p
    simp only [removeEvent] at hq
    by_cases hk : k = ev
    · rw [if_pos hk] at hq
      exact ih hq
    · rw [if_neg hk] at hq
      rcases List.mem_cons.1 hq with h | h
      · rw [h]
        exact hk
      · exact ih h

/-- C9: every operation preserves the registry invariant that each stored
key maps to a non-empty listener sequence (and keys stay unique), and under
that invariant `hasListeners` answers true exactly when at least one
listener record (once or non-once) is currently held for the event: it is
false on an event with no key, true immediately after a registration, and
false again immediately after the event's listeners are all removed. -/
theorem registry_invariant_hasListeners (env : Env) (d : Dispatcher)
    (hwf : registryWF d) :
    (∀ op, registryWF (step env d op).1) ∧
    (∀ ev b, hasListeners d ev = .ok b →
      (b = true ↔ ∃ q ∈ d.registry, q.1 = ev ∧ q.2 ≠ [])) ∧
    (∀ ev h, checkEventName d.allowedEvents ev = .ok () →
      ∃ d1, register d ev h = .ok d1 ∧ hasListeners d1 ev = .ok true) ∧
    (∀ ev, checkEventName d.allowedEvents ev = .ok () →
      ∃ d2, offAll d (some ev) = .ok d2 ∧ hasListeners d2 ev = .ok false) := by
  refine ⟨fun op => registryWF_step env d op hwf, ?_, ?_, ?_⟩
  · intro ev b hb
    unfold hasListeners at hb
    cases hc : checkEventName d.allowedEvents ev with
    | error er =>
      rw [hc] at hb
      cases hb
    | ok u =>
      rw [hc] at hb
      cases hl : lookupEvent d.registry ev with
      | none =>
        simp only [hl] at hb
        cases hb
        constructor
        · intro hf
          cases hf
        · rintro ⟨q, hq, hq1, hq2⟩
          rcases lookupEvent_of_mem_key d.registry ev ⟨q, hq, hq1⟩ with ⟨l', hl'⟩
          rw [hl'] at hl
          cases hl
      | some l =>
        simp only [hl] at hb
        cases hb
        have hlne : l ≠ [] := hwf.1 (ev, l) (lookupEvent_mem d.registry ev l hl)
        constructor
        · intro _
          exact ⟨(ev, l), lookupEvent_mem d.registry ev l hl, rfl, hlne⟩
        · intro _
          cases l with
          | nil => exact absurd rfl hlne
          | cons a as => rfl
  · intro ev h hval
    refine ⟨onState d ev h, register_ok d ev h hval, ?_⟩
    apply hasListeners_true_of_ne (onState d ev h) ev hval
    rw [listenersOf_onState, if_pos (rfl : ev = ev)]
    simp
  · intro ev hval
    refine ⟨offAllState d (some ev), offAll_some_ok d ev hval, ?_⟩
    apply hasListeners_false_of_eq (offAllState d (some ev)) ev hval
    rw [listenersOf_offAllState_some, if_pos (rfl : ev = ev)]

/-- C10: the absent-value marker used when `emit` is called without a
payload is the value `undefined`, passed as the sole argument: every
listener in the snapshot is invoked with the argument list `[undefined]` —
exactly one argument, whose value is `undefined`, not zero arguments and
not `null`. -/
theorem emit_absent_payload_undefined (env : Env) (d : Dispatcher)
    (ev : String) (hval : checkEventName d.allowedEvents ev = .ok ()) :
    ∃ d', emitNoArg env d ev =
        .ok (d', (listenersOf d ev).map (fun r => (r.handler, [JSVal.undefined]))) ∧
      ∀ q ∈ (listenersOf d ev).map (fun r => (r.handler, [JSVal.undefined])),
        q.2 = [JSVal.undefined] ∧ q.2.length = 1 ∧ q.2 ≠ [] ∧
          q.2 ≠ [JSVal.null] := by
  refine ⟨(runSnapshot env ev [JSVal.undefined] (listenersOf d ev) d).1,
    emit_eq_snapshot_pair env d ev JSVal.undefined hval, ?_⟩
  intro q hq
  rcases List.mem_map.1 hq with ⟨r, hrm, hr⟩
  subst hr
  refine ⟨rfl, rfl, ?_, ?_⟩
  · intro hc
    simp at hc
  · intro hc
    simp at hc

/-- C1 counterexample: on a dispatcher carrying the allow-list used by the
tests, `offAll` applied to the well-formed event name "event" — absent from
the allow-list — raises `EventNotAllowed` instead of succeeding, refuting
the claim that `offAll` performs no allow-list check. This matches the
repository's test `offAll > with allowed events > throws if event name is
not allowed`. -/
theorem offAll_allowlist_counterexample :
    offAll (Dispatcher.mk (some ["allowed-event-1", "allowed-event-2"]) [])
      (some "event") = .error .eventNotAllowed := by
  rfl

/-- C1 (amended): `offAll` with a supplied event name performs the same
validation as every other operation, allow-list check included: on a valid
(member or unrestricted) name it succeeds, removes every listener (once and
non-once) for that event and prunes the key while leaving other events'
listeners untouched; on a well-formed name absent from a configured
allow-list it raises `EventNotAllowed`; and `offAll` with no argument
performs no check and clears the entire registry. -/
theorem offAll_allowlist_corrected (d : Dispatcher) (ev : String) :
    (checkEventName d.allowedEvents ev = .ok () →
      ∃ d2, offAll d (some ev) = .ok d2 ∧
        listenersOf d2 ev = [] ∧
        (∀ q ∈ d2.registry, q.1 ≠ ev) ∧
        (∀ e, e ≠ ev → listenersOf d2 e = listenersOf d e)) ∧
    (∀ L, d.allowedEvents = some L → ev ≠ "" → ev ∉ L →
      offAll d (some ev) = .error .eventNotAllowed) ∧
    offAll d none = .ok { d with registry := [] } := by
  refine ⟨?_, ?_, rfl⟩
  · intro hval
    refine ⟨offAllState d (some ev), offAll_some_ok d ev hval, ?_, ?_, ?_⟩
    · rw [listenersOf_offAllState_some, if_pos (rfl : ev = ev)]
    · intro q hq
      exact mem_removeEvent_key_ne d.registry ev q hq
    · intro e he
      rw [listenersOf_offAllState_some, if_neg he]
  · intro L hL hne hmem
    apply offAll_some_err
    rw [hL]
    exact checkEventName_not_allowed L ev hne hmem

/-- Witness instantiating the snapshot-semantics theorem on the two-listener
dispatcher with an object payload. -/
theorem emit_snapshot_semantics_witness :
    checkEventName dTwo.allowedEvents "event" = Except.ok () ∧
    ((∃ d', emit envPure dTwo "event" (JSVal.obj 0) =
        .ok (d', (listenersOf dTwo "event").map (fun r => (r.handler, [JSVal.obj 0])))) ∧
      (∀ h2, (∀ r ∈ listenersOf dTwo "event", r.handler ≠ h2) →
        ∀ d' tr, emit envPure dTwo "event" (JSVal.obj 0) = .ok (d', tr) →
          invCount h2 tr = 0) ∧
      (∀ r ∈ listenersOf dTwo "event",
        ∀ d' tr, emit envPure dTwo "event" (JSVal.obj 0) = .ok (d', tr) →
          (r.handler, [JSVal.obj 0]) ∈ tr) ∧
      (∀ h, listenersOf dTwo "event" = [⟨h, true⟩] →
        envPure h = .doOnce "event" h →
        ∃ d', emit envPure dTwo "event" (JSVal.obj 0) = .ok (d', [(h, [JSVal.obj 0])]) ∧
          listenersOf d' "event" = [⟨h, true⟩])) :=
  ⟨rfl, emit_snapshot_semantics envPure dTwo "event" (JSVal.obj 0) rfl⟩

/-- Witness instantiating failure isolation where the first registered
handler throws. -/
theorem emit_isolates_listener_failures_witness :
    checkEventName dTwo.allowedEvents "event" = Except.ok () ∧
    (∃ r ∈ listenersOf dTwo "event", envThrow1 r.handler = HandlerAction.throws) ∧
    (∃ d', emit envThrow1 dTwo "event" JSVal.undefined =
        .ok (d', (listenersOf dTwo "event").map (fun r => (r.handler, [JSVal.undefined]))) ∧
      ∀ h2, invCount h2 ((listenersOf dTwo "event").map
          (fun r => (r.handler, [JSVal.undefined]))) =
        countIn h2 (listenersOf dTwo "event")) :=
  ⟨rfl, by decide,
    emit_isolates_listener_failures envThrow1 dTwo "event" JSVal.undefined rfl (by decide)⟩

/-- Witness instantiating registration order and payload passing on the
empty dispatcher with a string payload. -/
theorem register_emit_order_payload_witness :
    checkEventName dPlain.allowedEvents "event" = Except.ok () ∧
    (∃ d1 d2,
      register dPlain "event" 1 = .ok d1 ∧
      (∃ d', emit envPure d1 "event" (JSVal.str "hello!") = .ok (d',
        (listenersOf dPlain "event").map (fun r => (r.handler, [JSVal.str "hello!"])) ++
          [(1, [JSVal.str "hello!"])])) ∧
      register d1 "event" 2 = .ok d2 ∧
      (∃ d'', emit envPure d2 "event" (JSVal.str "hello!") = .ok (d'',
        (listenersOf dPlain "event").map (fun r => (r.handler, [JSVal.str "hello!"])) ++
          [(1, [JSVal.str "hello!"]), (2, [JSVal.str "hello!"])]))) :=
  ⟨rfl, register_emit_order_payload envPure dPlain "event" 1 2 (JSVal.str "hello!") rfl⟩

/-- Witness instantiating the at-most-once guarantee: handler 7 is
registered with `once` and "event" is then emitted twice. -/
theorem registerOnce_at_most_once_witness :
    checkEventName dPlain.allowedEvents "event" = Except.ok () ∧
    (∀ e, countIn 7 (listenersOf dPlain e) = 0) ∧
    (∀ h', actionRegistersH 7 (envPure h') = false) ∧
    (∀ op ∈ opsTwice, opRegistersH 7 op = false) ∧
    once dPlain "event" 7 = .ok dOnce7 ∧
    invCount 7 (run envPure dOnce7 opsTwice).2 +
      countIn 7 (listenersOf (run envPure dOnce7 opsTwice).1 "event") ≤ 1 :=
  ⟨rfl, fun _ => rfl, fun _ => rfl, by decide, rfl,
    registerOnce_at_most_once envPure dPlain "event" 7 opsTwice dOnce7 rfl
      (fun _ => rfl) (fun _ => rfl) (by decide) rfl⟩

/-- Witness instantiating `off` on the two-listener dispatcher, removing
handler 1. -/
theorem off_removes_matching_records_witness :
    checkEventName dTwo.allowedEvents "event" = Except.ok () ∧
    (∃ d2, off dTwo "event" 1 = .ok d2 ∧
      listenersOf d2 "event" = removeHandler (listenersOf dTwo "event") 1 ∧
      (∀ r, r ∈ listenersOf d2 "event" ↔
        r ∈ listenersOf dTwo "event" ∧ r.handler ≠ 1) ∧
      (∀ h', h' ≠ 1 →
        countIn h' (listenersOf d2 "event") = countIn h' (listenersOf dTwo "event")) ∧
      countIn 1 (listenersOf d2 "event") = 0 ∧
      (∀ e, e ≠ "event" → listenersOf d2 e = listenersOf dTwo e) ∧
      (registryWF dTwo → (∀ r ∈ listenersOf dTwo "event", r.handler ≠ 1) →
        d2 = dTwo)) :=
  ⟨rfl, off_removes_matching_records dTwo "event" 1 rfl⟩

/-- Witness instantiating allow-list enforcement on the restricted
dispatcher of the tests with the event name "event". -/
theorem allowlist_enforcement_witness :
    dRestricted.allowedEvents = some ["allowed-event-1", "allowed-event-2"] ∧
    "event" ≠ "" ∧
    (("event" ∉ ["allowed-event-1", "allowed-event-2"] →
      register dRestricted "event" 3 = .error .eventNotAllowed ∧
      once dRestricted "event" 3 = .error .eventNotAllowed ∧
      off dRestricted "event" 3 = .error .eventNotAllowed ∧
      emit envPure dRestricted "event" JSVal.undefined = .error .eventNotAllowed ∧
      hasListeners dRestricted "event" = .error .eventNotAllowed) ∧
    ("event" ∈ ["allowed-event-1", "allowed-event-2"] →
      (register dRestricted "event" 3).map Dispatcher.registry =
        (register (unrestricted dRestricted) "event" 3).map Dispatcher.registry ∧
      (once dRestricted "event" 3).map Dispatcher.registry =
        (once (unrestricted dRestricted) "event" 3).map Dispatcher.registry ∧
      (off dRestricted "event" 3).map Dispatcher.registry =
        (off (unrestricted dRestricted) "event" 3).map Dispatcher.registry ∧
      hasListeners dRestricted "event" = hasListeners (unrestricted dRestricted) "event" ∧
      (emit envPure dRestricted "event" JSVal.undefined).map (fun res => res.2) =
        (emit envPure (unrestricted dRestricted) "event" JSVal.undefined).map
          (fun res => res.2) ∧
      ((∀ h', envPure h' = .pure) →
        (emit envPure dRestricted "event" JSVal.undefined).map
            (fun res => res.1.registry) =
          (emit envPure (unrestricted dRestricted) "event" JSVal.undefined).map
            (fun res => res.1.registry)))) :=
  ⟨rfl, by decide,
    allowlist_enforcement envPure dRestricted ["allowed-event-1", "allowed-event-2"]
      "event" 3 JSVal.undefined rfl (by decide)⟩

/-- Witness instantiating composition on a conflict-free target with no
allow-list. -/
theorem mixin_conflict_and_composition_witness :
    validAllowedEvents none = true ∧
    (((∃ n ∈ reservedNames, n ∈ targetPlain.props) →
      mixin targetPlain none = .error .alreadyComposed) ∧
    ((∀ n ∈ reservedNames, n ∉ targetPlain.props) →
      mixin targetPlain none =
        .ok ({ props := targetPlain.props ++ reservedNames },
          { allowedEvents := none, registry := [] }) ∧
      (∀ m ∈ targetPlain.props,
        m ∈ ({ props := targetPlain.props ++ reservedNames } : JSObject).props) ∧
      (∀ n ∈ reservedNames,
        n ∈ ({ props := targetPlain.props ++ reservedNames } : JSObject).props))) :=
  ⟨rfl, mixin_conflict_and_composition targetPlain none rfl⟩

/-- Witness instantiating the registry invariant and the `hasListeners`
characterisation on the two-listener dispatcher. -/
theorem registry_invariant_hasListeners_witness :
    registryWF dTwo ∧
    ((∀ op, registryWF (step envPure dTwo op).1) ∧
    (∀ ev b, hasListeners dTwo ev = .ok b →
      (b = true ↔ ∃ q ∈ dTwo.registry, q.1 = ev ∧ q.2 ≠ [])) ∧
    (∀ ev h, checkEventName dTwo.allowedEvents ev = .ok () →
      ∃ d1, register dTwo ev h = .ok d1 ∧ hasListeners d1 ev = .ok true) ∧
    (∀ ev, checkEventName dTwo.allowedEvents ev = .ok () →
      ∃ d2, offAll dTwo (some ev) = .ok d2 ∧ hasListeners d2 ev = .ok false)) :=
  ⟨(⟨by decide, by decide⟩ : registryWF dTwo),
    registry_invariant_hasListeners envPure dTwo
      (⟨by decide, by decide⟩ : registryWF dTwo)⟩

/-- Witness instantiating the absent-payload marker theorem on the
two-listener dispatcher. -/
theorem emit_absent_payload_undefined_witness :
    checkEventName dTwo.allowedEvents "event" = Except.ok () ∧
    (∃ d', emitNoArg envPure dTwo "event" =
        .ok (d', (listenersOf dTwo "event").map (fun r => (r.handler, [JSVal.undefined]))) ∧
      ∀ q ∈ (listenersOf dTwo "event").map (fun r => (r.handler, [JSVal.undefined])),
        q.2 = [JSVal.undefined] ∧ q.2.length = 1 ∧ q.2 ≠ [] ∧
          q.2 ≠ [JSVal.null]) :=
  ⟨rfl, emit_absent_payload_undefined envPure dTwo "event" rfl⟩

/-- Witness instantiating the amended `offAll` claim on the restricted
dispatcher with an allow-listed event name. -/
theorem offAll_allowlist_corrected_witness :
    (checkEventName dRestricted.allowedEvents "allowed-event-1" = .ok () →
      ∃ d2, offAll dRestricted (some "allowed-event-1") = .ok d2 ∧
        listenersOf d2 "allowed-event-1" = [] ∧
        (∀ q ∈ d2.registry, q.1 ≠ "allowed-event-1") ∧
        (∀ e, e ≠ "allowed-event-1" → listenersOf d2 e = listenersOf dRestricted e)) ∧
    (∀ L, dRestricted.allowedEvents = some L → "allowed-event-1" ≠ "" →
      "allowed-event-1" ∉ L →
      offAll dRestricted (some "allowed-event-1") = .error .eventNotAllowed) ∧
    offAll dRestricted none = .ok { dRestricted with registry := [] } :=
  offAll_allowlist_corrected dRestricted "allowed-event-1"

end EventDispatcher
